import Mathlib

/-!
Shallow embedding of the termdash container configuration engine
(`src/container/options.go`) and proofs about its claimed properties.

Opaque value types of the surrounding system (keyboard keys, colors,
line styles, widget handles) are embedded as plain integers / naturals:
the engine only stores and compares them.
-/

set_option autoImplicit false

namespace Termdash

/-- Opaque widget handle (`widgetapi.Widget`); the engine only checks presence. -/
abbrev Widget := Nat

/-- Opaque keyboard key (`keyboard.Key`, an integer type in the source). -/
abbrev Key := Int

/-- Opaque color token (`cell.Color`, an integer type in the source). -/
abbrev Color := Nat

/-- Source `cell.ColorYellow`, the default focused border color used by `newOptions`. -/
def ColorYellow : Color := 4

/-- Opaque line style token (`linestyle.LineStyle`, an integer type). -/
abbrev LineStyle := Nat

/-- Source `FocusGroup` from the source: `type FocusGroup int`. -/
abbrev FocusGroup := Int

/-- Source `align.Horizontal` values. -/
inductive Horizontal where
  | left
  | center
  | right
deriving DecidableEq, Repr

/-- Source `align.Vertical` values. -/
inductive Vertical where
  | top
  | middle
  | bottom
deriving DecidableEq, Repr

/-- One of the four sides of a rectangle, used to tag errors. -/
inductive ErrSide where
  | top
  | right
  | bottom
  | left
deriving DecidableEq, Repr

/-- Structured error values standing for the `error` returns of the source;
the claims only inspect which check fired, never the message text. -/
inductive Err where
  | duplicateID (id : String)
  | splitConflict (fixed percent : Int)
  | invalidSplitPercent (p : Int)
  | invalidSplitFixed (cells : Int)
  | emptyID
  | invalidCells (side : ErrSide) (cells : Int)
  | invalidPerc (side : ErrSide) (perc : Int)
  | cellsVsPerc (side : ErrSide) (cells perc : Int)
  | percVsCells (side : ErrSide) (perc cells : Int)
  | invalidFocusGroup (g : Int)
  | keyAlreadyPrevious (k : Key)
  | keyAlreadyNext (k : Key)
  | negativeSize
deriving DecidableEq, Repr

/-- Source `image.Rectangle`: min corner `(x0, y0)`, max corner `(x1, y1)`. -/
structure Rect where
  x0 : Int
  y0 : Int
  x1 : Int
  y1 : Int
deriving DecidableEq, Repr

/-- Width of a rectangle (`Dx`). -/
def Rect.dx (r : Rect) : Int := r.x1 - r.x0

/-- Height of a rectangle (`Dy`). -/
def Rect.dy (r : Rect) : Int := r.y1 - r.y0

/-- Modelled from the spec: the external Geometry Helper
`area.Shrink(rect, top, right, bottom, left)` (the `private/area` package is
not under `src/`). Each side moves inward by the given number of cells;
shrinking below zero size in either dimension is an error. -/
def Shrink (ar : Rect) (top right bottom left : Int) : Except Err Rect :=
  let r : Rect := ⟨ar.x0 + left, ar.y0 + top, ar.x1 - right, ar.y1 - bottom⟩
  if r.dx < 0 ∨ r.dy < 0 then .error .negativeSize else .ok r

/-- Modelled from the spec: the external Geometry Helper `area.ShrinkPercent`
(the `private/area` package is not under `src/`). Each side shrinks by the
given percentage of the relevant dimension: top/bottom use the height,
left/right use the width. -/
def ShrinkPercent (ar : Rect) (top right bottom left : Int) : Except Err Rect :=
  Shrink ar (ar.dy * top / 100) (ar.dx * right / 100) (ar.dy * bottom / 100) (ar.dx * left / 100)

/-- Source `margin` record: per-side cell and percentage values. -/
structure Margin where
  topCells : Int := 0
  topPerc : Int := 0
  rightCells : Int := 0
  rightPerc : Int := 0
  bottomCells : Int := 0
  bottomPerc : Int := 0
  leftCells : Int := 0
  leftPerc : Int := 0
deriving DecidableEq, Repr

/-- Source `margin.apply` from the source: a switch that applies all cell values if
any is non-zero, else all percentage values if any is non-zero. -/
def Margin.apply (p : Margin) (ar : Rect) : Except Err Rect :=
  if p.topCells ≠ 0 ∨ p.rightCells ≠ 0 ∨ p.bottomCells ≠ 0 ∨ p.leftCells ≠ 0 then
    Shrink ar p.topCells p.rightCells p.bottomCells p.leftCells
  else if p.topPerc ≠ 0 ∨ p.rightPerc ≠ 0 ∨ p.bottomPerc ≠ 0 ∨ p.leftPerc ≠ 0 then
    ShrinkPercent ar p.topPerc p.rightPerc p.bottomPerc p.leftPerc
  else .ok ar

/-- Source `padding` record: per-side cell and percentage values. -/
structure Padding where
  topCells : Int := 0
  topPerc : Int := 0
  rightCells : Int := 0
  rightPerc : Int := 0
  bottomCells : Int := 0
  bottomPerc : Int := 0
  leftCells : Int := 0
  leftPerc : Int := 0
deriving DecidableEq, Repr

/-- Source `padding.apply` from the source, same switch as `margin.apply`. -/
def Padding.apply (p : Padding) (ar : Rect) : Except Err Rect :=
  if p.topCells ≠ 0 ∨ p.rightCells ≠ 0 ∨ p.bottomCells ≠ 0 ∨ p.leftCells ≠ 0 then
    Shrink ar p.topCells p.rightCells p.bottomCells p.leftCells
  else if p.topPerc ≠ 0 ∨ p.rightPerc ≠ 0 ∨ p.bottomPerc ≠ 0 ∨ p.leftPerc ≠ 0 then
    ShrinkPercent ar p.topPerc p.rightPerc p.bottomPerc p.leftPerc
  else .ok ar

/-- The amount one side shrinks by under the spec's per-side-independent
reading: the cell value if set, else the percentage of the relevant
dimension, else zero. -/
def sideAmount (cells perc dim : Int) : Int :=
  if cells ≠ 0 then cells else dim * perc / 100

/-- The per-side-independent margin application described by the spec
sentence behind C1 (each of the four sides treated independently);
to be compared against `Margin.apply` from the source. -/
def marginApplyPerSide (p : Margin) (ar : Rect) : Except Err Rect :=
  Shrink ar (sideAmount p.topCells p.topPerc ar.dy)
    (sideAmount p.rightCells p.rightPerc ar.dx)
    (sideAmount p.bottomCells p.bottomPerc ar.dy)
    (sideAmount p.leftCells p.leftPerc ar.dx)

/-- The per-side-independent padding application described by the spec
sentence behind C1; to be compared against `Padding.apply` from the source. -/
def paddingApplyPerSide (p : Padding) (ar : Rect) : Except Err Rect :=
  Shrink ar (sideAmount p.topCells p.topPerc ar.dy)
    (sideAmount p.rightCells p.rightPerc ar.dx)
    (sideAmount p.bottomCells p.bottomPerc ar.dy)
    (sideAmount p.leftCells p.leftPerc ar.dx)

/-- Source `Margin` with the percentage fields cleared. -/
def Margin.zeroPerc (m : Margin) : Margin :=
  { m with topPerc := 0, rightPerc := 0, bottomPerc := 0, leftPerc := 0 }

/-- Source `Padding` with the percentage fields cleared. -/
def Padding.zeroPerc (m : Padding) : Padding :=
  { m with topPerc := 0, rightPerc := 0, bottomPerc := 0, leftPerc := 0 }

/-- Source `inherited`: options copied by value into child containers at creation. -/
structure Inherited where
  borderColor : Color := 0
  focusedColor : Color := 0
  titleColor : Option Color := none
  titleFocusedColor : Option Color := none
deriving DecidableEq, Repr

/-- Source `focusGroups` (`map[FocusGroup]bool` with all values `true`): a set of
focus group numbers, embedded as the list of members. -/
abbrev FocusGroups := List FocusGroup

/-- Source `focusGroups.firstMatching`: scans the container's declared groups in
order and returns the first one that is a member of this set. -/
def firstMatching (fg : FocusGroups) : List FocusGroup → Bool × FocusGroup
  | [] => (false, 0)
  | cg :: rest => if cg ∈ fg then (true, cg) else firstMatching fg rest

/-- Association list embedding of a Go `map[keyboard.Key]focusGroups`. -/
abbrev KeyGroupsMap := List (Key × FocusGroups)

/-- Map lookup for `KeyGroupsMap`. -/
def lookupFG : KeyGroupsMap → Key → Option FocusGroups
  | [], _ => none
  | (k', v) :: rest, k => if k' = k then some v else lookupFG rest k

/-- The effect of `fg, ok := m[key]; if !ok { fg = focusGroups{}; m[key] = fg };
fg[g] = true`: adds `g` to the set stored under `key`, creating the entry
when absent. -/
def insertFG : KeyGroupsMap → Key → FocusGroup → KeyGroupsMap
  | [], k, g => [(k, [g])]
  | (k', v) :: rest, k, g =>
    if k' = k then (k', if g ∈ v then v else v ++ [g]) :: rest
    else (k', v) :: insertFG rest k g

/-- Source `globalOptions`: the single record shared by reference across a tree. -/
structure GlobalOptions where
  keyFocusNext : Option Key := none
  keyFocusPrevious : Option Key := none
  keyFocusGroupsNext : KeyGroupsMap := []
  keyFocusGroupsPrevious : KeyGroupsMap := []
deriving DecidableEq, Repr

/-- The heap of allocated `globalOptions` records; a container's options hold
an index into it, standing for the Go pointer `*globalOptions`. -/
abbrev Heap := List GlobalOptions

/-- Reading through a `*globalOptions` pointer. -/
def getG (h : Heap) (r : Nat) : GlobalOptions := h.getD r {}

/-- Writing through a `*globalOptions` pointer. -/
def setG (h : Heap) (r : Nat) (g : GlobalOptions) : Heap := h.set r g

/-- Source `splitType` values. -/
inductive SplitType where
  | vertical
  | horizontal
deriving DecidableEq, Repr

/-- Source `DefaultSplitReversed`. -/
def DefaultSplitReversed : Bool := false

/-- Source `DefaultSplitPercent`. -/
def DefaultSplitPercent : Int := 50

/-- Source `DefaultSplitFixed`. -/
def DefaultSplitFixed : Int := -1

/-- The `options` record of a container. The Go field `global *globalOptions`
becomes the heap index `globalRef`. -/
structure Opts where
  id : String
  globalRef : Nat
  inherited : Inherited
  split : SplitType
  splitReversed : Bool
  splitPercent : Int
  splitFixed : Int
  widget : Option Widget
  hAlign : Horizontal
  vAlign : Vertical
  border : LineStyle
  borderTitle : String
  borderTitleHAlign : Horizontal
  padding : Padding
  margin : Margin
  keyFocusSkip : Bool
  keyFocusGroups : List FocusGroup
deriving DecidableEq, Repr

/-- Source `newOptions`: builds a fresh options record; for a root (no parent) it
allocates a new `globalOptions` record on the heap, for a child it shares the
parent's record by reference and copies the parent's inherited options by
value. -/
def newOptions (parent : Option Opts) (h : Heap) : Opts × Heap :=
  let base : Opts := {
    id := ""
    globalRef := h.length
    inherited := { focusedColor := ColorYellow }
    split := .vertical
    splitReversed := DefaultSplitReversed
    splitPercent := DefaultSplitPercent
    splitFixed := DefaultSplitFixed
    widget := none
    hAlign := .center
    vAlign := .middle
    border := 0
    borderTitle := ""
    borderTitleHAlign := .left
    padding := {}
    margin := {}
    keyFocusSkip := false
    keyFocusGroups := [] }
  match parent with
  | none => (base, h ++ [{}])
  | some p => ({ base with globalRef := p.globalRef, inherited := p.inherited }, h)

/-- A `Container`: an options record and up to two sub containers. -/
inductive Container where
  | mk (opts : Opts) (first second : Option Container)

/-- The `opts` field of a container. -/
def Container.opts : Container → Opts
  | .mk o _ _ => o

/-- The `first` sub container. -/
def Container.first : Container → Option Container
  | .mk _ f _ => f

/-- The `second` sub container. -/
def Container.second : Container → Option Container
  | .mk _ _ s => s

/-- Replace the options record of a container, keeping its children
(the effect of mutating through `c.opts`). -/
def Container.withOpts : Container → Opts → Container
  | .mk _ f s, o => .mk o f s

/-- The claimed structural invariant at one node: the two child pointers are
both set or both unset, and children and a widget are never present
together. -/
def nodeOK (c : Container) : Bool :=
  (c.first.isSome == c.second.isSome) && !(c.first.isSome && c.opts.widget.isSome)

mutual

/-- Source `nodeOK` at every node of the tree. -/
def treeOK : Container → Bool
  | .mk o f s => nodeOK (.mk o f s) && treeOKO f && treeOKO s

/-- Source `treeOK` lifted to an optional sub container. -/
def treeOKO : Option Container → Bool
  | none => true
  | some c => treeOK c

end

/-- Source `validateIds` from the source: an empty identifier always passes; a
non-empty one fails when already seen and is recorded otherwise. The Go
`seen map[string]bool` is embedded as the list of recorded identifiers. -/
def validateIds (c : Container) (seen : List String) : List String × Option Err :=
  if c.opts.id = "" then (seen, none)
  else if c.opts.id ∈ seen then (seen, some (.duplicateID c.opts.id))
  else (seen ++ [c.opts.id], none)

/-- Source `validateSplits` from the source: fails when a fixed split value above the
default is combined with a percentage different from the default. -/
def validateSplits (c : Container) : Option Err :=
  if c.opts.splitFixed > DefaultSplitFixed ∧ c.opts.splitPercent ≠ DefaultSplitPercent then
    some (.splitConflict c.opts.splitFixed c.opts.splitPercent)
  else none

mutual

/-- Modelled from the spec: the `preOrder` walker (not under `src/`) visits
the node, then the first child, then the second, stopping at the first
validator failure; composed here with the visit function of
`validateOptions` (identifier check, then split check). -/
def validateWalk : Container → List String → List String × Option Err
  | .mk o f s, seen =>
    match validateIds (.mk o f s) seen with
    | (seen1, some e) => (seen1, some e)
    | (seen1, none) =>
      match validateSplits (.mk o f s) with
      | some e => (seen1, some e)
      | none =>
        match validateWalkO f seen1 with
        | (seen2, some e) => (seen2, some e)
        | (seen2, none) => validateWalkO s seen2

/-- Source `validateWalk` lifted to an optional sub container. -/
def validateWalkO : Option Container → List String → List String × Option Err
  | none, seen => (seen, none)
  | some c, seen => validateWalk c seen

end

/-- Source `validateOptions` from the source: run the pre-order validation walk over
the whole tree and report its first failure, if any. -/
def validateOptions (c : Container) : Option Err :=
  (validateWalk c []).2

mutual

/-- The non-empty identifiers of a tree, in pre-order. -/
def nonEmptyIds : Container → List String
  | .mk o f s => (if o.id = "" then [] else [o.id]) ++ nonEmptyIdsO f ++ nonEmptyIdsO s

/-- Source `nonEmptyIds` lifted to an optional sub container. -/
def nonEmptyIdsO : Option Container → List String
  | none => []
  | some c => nonEmptyIds c

end

mutual

/-- Source `validateSplits` passes at every node of the tree. -/
def allSplitsOK : Container → Bool
  | .mk o f s => (validateSplits (.mk o f s)).isNone && allSplitsOKO f && allSplitsOKO s

/-- Source `allSplitsOK` lifted to an optional sub container. -/
def allSplitsOKO : Option Container → Bool
  | none => true
  | some c => allSplitsOK c

end

/-- Source `SplitOption` values (`SplitPercent`, `SplitPercentFromEnd`, `SplitFixed`,
`SplitFixedFromEnd`). -/
inductive SplitOpt where
  | SplitPercent (p : Int)
  | SplitPercentFromEnd (p : Int)
  | SplitFixed (cells : Int)
  | SplitFixedFromEnd (cells : Int)
deriving DecidableEq, Repr

/-- Source `setSplit`: the body of the respective `SplitOption` closure; validates
the argument and updates the options record. -/
def setSplit : SplitOpt → Opts → Opts × Option Err
  | .SplitPercent p, o =>
    if p ≤ 0 ∨ p ≥ 100 then (o, some (.invalidSplitPercent p))
    else ({ o with splitPercent := p }, none)
  | .SplitPercentFromEnd p, o =>
    if p ≤ 0 ∨ p ≥ 100 then (o, some (.invalidSplitPercent p))
    else ({ o with splitReversed := true, splitPercent := p }, none)
  | .SplitFixed cells, o =>
    if cells < 0 then (o, some (.invalidSplitFixed cells))
    else ({ o with splitFixed := cells }, none)
  | .SplitFixedFromEnd cells, o =>
    if cells < 0 then (o, some (.invalidSplitFixed cells))
    else ({ o with splitFixed := cells, splitReversed := true }, none)

/-- The `for _, opt := range opts { opt.setSplit(c.opts) }` loop inside the
split options: stops at the first failure, keeping earlier updates. -/
def applySplitOpts : List SplitOpt → Opts → Opts × Option Err
  | [], o => (o, none)
  | so :: rest, o =>
    match setSplit so o with
    | (o', some e) => (o', some e)
    | (o', none) => applySplitOpts rest o'

/-- The loop of `KeyFocusGroupsNext`, acting on the shared `globalOptions`
record: per group, reject negatives, reject a key already mapped in the
previous-direction map, else record the group under the key. -/
def keyFocusGroupsNextG (key : Key) : List FocusGroup → GlobalOptions → GlobalOptions × Option Err
  | [], g => (g, none)
  | gr :: grs, g =>
    if gr < 0 then (g, some (.invalidFocusGroup gr))
    else if (lookupFG g.keyFocusGroupsPrevious key).isSome then (g, some (.keyAlreadyPrevious key))
    else keyFocusGroupsNextG key grs
      { g with keyFocusGroupsNext := insertFG g.keyFocusGroupsNext key gr }

/-- The loop of `KeyFocusGroupsPrevious`, symmetric to
`keyFocusGroupsNextG`. -/
def keyFocusGroupsPreviousG (key : Key) : List FocusGroup → GlobalOptions → GlobalOptions × Option Err
  | [], g => (g, none)
  | gr :: grs, g =>
    if gr < 0 then (g, some (.invalidFocusGroup gr))
    else if (lookupFG g.keyFocusGroupsNext key).isSome then (g, some (.keyAlreadyNext key))
    else keyFocusGroupsPreviousG key grs
      { g with keyFocusGroupsPrevious := insertFG g.keyFocusGroupsPrevious key gr }

/-- The loop of `KeyFocusGroups`: appends each non-negative group to the
container's group list, stopping at the first negative one. -/
def keyFocusGroupsLoop : List FocusGroup → List FocusGroup → List FocusGroup × Option Err
  | [], acc => (acc, none)
  | g :: gs, acc =>
    if g < 0 then (acc, some (.invalidFocusGroup g))
    else keyFocusGroupsLoop gs (acc ++ [g])

mutual

/-- The container `Option` values of the source, as tagged variants; each
constructor carries the validated parameters of the corresponding closure. -/
inductive ContOption where
  | SplitVertical (l r : ContOptions) (opts : List SplitOpt)
  | SplitHorizontal (t b : ContOptions) (opts : List SplitOpt)
  | ID (id : String)
  | Clear
  | PlaceWidget (w : Widget)
  | MarginTop (cells : Int)
  | MarginRight (cells : Int)
  | MarginBottom (cells : Int)
  | MarginLeft (cells : Int)
  | MarginTopPercent (perc : Int)
  | MarginRightPercent (perc : Int)
  | MarginBottomPercent (perc : Int)
  | MarginLeftPercent (perc : Int)
  | PaddingTop (cells : Int)
  | PaddingRight (cells : Int)
  | PaddingBottom (cells : Int)
  | PaddingLeft (cells : Int)
  | PaddingTopPercent (perc : Int)
  | PaddingRightPercent (perc : Int)
  | PaddingBottomPercent (perc : Int)
  | PaddingLeftPercent (perc : Int)
  | AlignHorizontal (h : Horizontal)
  | AlignVertical (v : Vertical)
  | Border (ls : LineStyle)
  | BorderTitle (title : String)
  | BorderTitleAlignLeft
  | BorderTitleAlignCenter
  | BorderTitleAlignRight
  | BorderColor (color : Color)
  | FocusedColor (color : Color)
  | TitleColor (color : Color)
  | TitleFocusedColor (color : Color)
  | KeyFocusNext (k : Key)
  | KeyFocusPrevious (k : Key)
  | KeyFocusSkip
  | KeyFocusGroups (groups : List FocusGroup)
  | KeyFocusGroupsNext (k : Key) (groups : List FocusGroup)
  | KeyFocusGroupsPrevious (k : Key) (groups : List FocusGroup)

/-- An ordered list of container options (the `opts ...Option` argument). -/
inductive ContOptions where
  | nil
  | cons (o : ContOption) (rest : ContOptions)

end

/-- List concatenation for `ContOptions`. -/
def ContOptions.append : ContOptions → ContOptions → ContOptions
  | .nil, os2 => os2
  | .cons o os, os2 => .cons o (os.append os2)

/-- Result of applying options: the updated container, the updated heap of
shared global records, and the first error if any; mutations performed
before the error are retained. -/
structure ApplyResult where
  c : Container
  heap : Heap
  err : Option Err

mutual

/-- Source `Option.set` for each option of the source, as one dispatch over the
tagged variants; operates on the container value and the heap of shared
`globalOptions` records. The creation of the two sub containers inside the
split options is modelled from the spec (`createFirst`, `createSecond` and
`newChild` are not under `src/`): splitting creates exactly two new child
containers, each from `newOptions` of the parent's current options, then
applies the per-child option lists to the first and then the second child,
stopping at the first error. -/
def setOption : ContOption → Container → Heap → ApplyResult
  | .SplitVertical l r so, c, h =>
    let o1 := { c.opts with split := SplitType.vertical, widget := none }
    match applySplitOpts so o1 with
    | (o2, some e) => ⟨c.withOpts o2, h, some e⟩
    | (o2, none) =>
      let (fo, h1) := newOptions (some o2) h
      let (so2, h2) := newOptions (some o2) h1
      let rf := applyOptions l (.mk fo none none) h2
      match rf.err with
      | some e => ⟨.mk o2 (some rf.c) (some (.mk so2 none none)), rf.heap, some e⟩
      | none =>
        let rs := applyOptions r (.mk so2 none none) rf.heap
        ⟨.mk o2 (some rf.c) (some rs.c), rs.heap, rs.err⟩
  | .SplitHorizontal t b so, c, h =>
    let o1 := { c.opts with split := SplitType.horizontal, widget := none }
    match applySplitOpts so o1 with
    | (o2, some e) => ⟨c.withOpts o2, h, some e⟩
    | (o2, none) =>
      let (fo, h1) := newOptions (some o2) h
      let (so2, h2) := newOptions (some o2) h1
      let rf := applyOptions t (.mk fo none none) h2
      match rf.err with
      | some e => ⟨.mk o2 (some rf.c) (some (.mk so2 none none)), rf.heap, some e⟩
      | none =>
        let rs := applyOptions b (.mk so2 none none) rf.heap
        ⟨.mk o2 (some rf.c) (some rs.c), rs.heap, rs.err⟩
  | .ID i, c, h =>
    if i = "" then ⟨c, h, some .emptyID⟩
    else ⟨c.withOpts { c.opts with id := i }, h, none⟩
  | .Clear, c, h =>
    ⟨.mk { c.opts with widget := none } none none, h, none⟩
  | .PlaceWidget w, c, h =>
    ⟨.mk { c.opts with widget := some w } none none, h, none⟩
  | .MarginTop cells, c, h =>
    if cells < 0 then ⟨c, h, some (.invalidCells .top cells)⟩
    else if c.opts.margin.topPerc > 0 then
      ⟨c, h, some (.cellsVsPerc .top cells c.opts.margin.topPerc)⟩
    else ⟨c.withOpts { c.opts with margin := { c.opts.margin with topCells := cells } }, h, none⟩
  | .MarginRight cells, c, h =>
    if cells < 0 then ⟨c, h, some (.invalidCells .right cells)⟩
    else if c.opts.margin.rightPerc > 0 then
      ⟨c, h, some (.cellsVsPerc .right cells c.opts.margin.rightPerc)⟩
    else ⟨c.withOpts { c.opts with margin := { c.opts.margin with rightCells := cells } }, h, none⟩
  | .MarginBottom cells, c, h =>
    if cells < 0 then ⟨c, h, some (.invalidCells .bottom cells)⟩
    else if c.opts.margin.bottomPerc > 0 then
      ⟨c, h, some (.cellsVsPerc .bottom cells c.opts.margin.bottomPerc)⟩
    else ⟨c.withOpts { c.opts with margin := { c.opts.margin with bottomCells := cells } }, h, none⟩
  | .MarginLeft cells, c, h =>
    if cells < 0 then ⟨c, h, some (.invalidCells .left cells)⟩
    else if c.opts.margin.leftPerc > 0 then
      ⟨c, h, some (.cellsVsPerc .left cells c.opts.margin.leftPerc)⟩
    else ⟨c.withOpts { c.opts with margin := { c.opts.margin with leftCells := cells } }, h, none⟩
  | .MarginTopPercent perc, c, h =>
    if perc < 0 ∨ perc > 100 then ⟨c, h, some (.invalidPerc .top perc)⟩
    else if c.opts.margin.topCells > 0 then
      ⟨c, h, some (.percVsCells .top perc c.opts.margin.topCells)⟩
    else ⟨c.withOpts { c.opts with margin := { c.opts.margin with topPerc := perc } }, h, none⟩
  | .MarginRightPercent perc, c, h =>
    if perc < 0 ∨ perc > 100 then ⟨c, h, some (.invalidPerc .right perc)⟩
    else if c.opts.margin.rightCells > 0 then
      ⟨c, h, some (.percVsCells .right perc c.opts.margin.rightCells)⟩
    else ⟨c.withOpts { c.opts with margin := { c.opts.margin with rightPerc := perc } }, h, none⟩
  | .MarginBottomPercent perc, c, h =>
    if perc < 0 ∨ perc > 100 then ⟨c, h, some (.invalidPerc .bottom perc)⟩
    else if c.opts.margin.bottomCells > 0 then
      ⟨c, h, some (.percVsCells .bottom perc c.opts.margin.bottomCells)⟩
    else ⟨c.withOpts { c.opts with margin := { c.opts.margin with bottomPerc := perc } }, h, none⟩
  | .MarginLeftPercent perc, c, h =>
    if perc < 0 ∨ perc > 100 then ⟨c, h, some (.invalidPerc .left perc)⟩
    else if c.opts.margin.leftCells > 0 then
      ⟨c, h, some (.percVsCells .left perc c.opts.margin.leftCells)⟩
    else ⟨c.withOpts { c.opts with margin := { c.opts.margin with leftPerc := perc } }, h, none⟩
  | .PaddingTop cells, c, h =>
    if cells < 0 then ⟨c, h, some (.invalidCells .top cells)⟩
    else if c.opts.padding.topPerc > 0 then
      ⟨c, h, some (.cellsVsPerc .top cells c.opts.padding.topPerc)⟩
    else ⟨c.withOpts { c.opts with padding := { c.opts.padding with topCells := cells } }, h, none⟩
  | .PaddingRight cells, c, h =>
    if cells < 0 then ⟨c, h, some (.invalidCells .right cells)⟩
    else if c.opts.padding.rightPerc > 0 then
      ⟨c, h, some (.cellsVsPerc .right cells c.opts.padding.rightPerc)⟩
    else ⟨c.withOpts { c.opts with padding := { c.opts.padding with rightCells := cells } }, h, none⟩
  | .PaddingBottom cells, c, h =>
    if cells < 0 then ⟨c, h, some (.invalidCells .bottom cells)⟩
    else if c.opts.padding.bottomPerc > 0 then
      ⟨c, h, some (.cellsVsPerc .bottom cells c.opts.padding.bottomPerc)⟩
    else ⟨c.withOpts { c.opts with padding := { c.opts.padding with bottomCells := cells } }, h, none⟩
  | .PaddingLeft cells, c, h =>
    if cells < 0 then ⟨c, h, some (.invalidCells .left cells)⟩
    else if c.opts.padding.leftPerc > 0 then
      ⟨c, h, some (.cellsVsPerc .left cells c.opts.padding.leftPerc)⟩
    else ⟨c.withOpts { c.opts with padding := { c.opts.padding with leftCells := cells } }, h, none⟩
  | .PaddingTopPercent perc, c, h =>
    if perc < 0 ∨ perc > 100 then ⟨c, h, some (.invalidPerc .top perc)⟩
    else if c.opts.padding.topCells > 0 then
      ⟨c, h, some (.percVsCells .top perc c.opts.padding.topCells)⟩
    else ⟨c.withOpts { c.opts with padding := { c.opts.padding with topPerc := perc } }, h, none⟩
  | .PaddingRightPercent perc, c, h =>
    if perc < 0 ∨ perc > 100 then ⟨c, h, some (.invalidPerc .right perc)⟩
    else if c.opts.padding.rightCells > 0 then
      ⟨c, h, some (.percVsCells .right perc c.opts.padding.rightCells)⟩
    else ⟨c.withOpts { c.opts with padding := { c.opts.padding with rightPerc := perc } }, h, none⟩
  | .PaddingBottomPercent perc, c, h =>
    if perc < 0 ∨ perc > 100 then ⟨c, h, some (.invalidPerc .bottom perc)⟩
    else if c.opts.padding.bottomCells > 0 then
      ⟨c, h, some (.percVsCells .bottom perc c.opts.padding.bottomCells)⟩
    else ⟨c.withOpts { c.opts with padding := { c.opts.padding with bottomPerc := perc } }, h, none⟩
  | .PaddingLeftPercent perc, c, h =>
    if perc < 0 ∨ perc > 100 then ⟨c, h, some (.invalidPerc .left perc)⟩
    else if c.opts.padding.leftCells > 0 then
      ⟨c, h, some (.percVsCells .left perc c.opts.padding.leftCells)⟩
    else ⟨c.withOpts { c.opts with padding := { c.opts.padding with leftPerc := perc } }, h, none⟩
  | .AlignHorizontal a, c, h =>
    ⟨c.withOpts { c.opts with hAlign := a }, h, none⟩
  | .AlignVertical a, c, h =>
    ⟨c.withOpts { c.opts with vAlign := a }, h, none⟩
  | .Border ls, c, h =>
    ⟨c.withOpts { c.opts with border := ls }, h, none⟩
  | .BorderTitle title, c, h =>
    ⟨c.withOpts { c.opts with borderTitle := title }, h, none⟩
  | .BorderTitleAlignLeft, c, h =>
    ⟨c.withOpts { c.opts with borderTitleHAlign := .left }, h, none⟩
  | .BorderTitleAlignCenter, c, h =>
    ⟨c.withOpts { c.opts with borderTitleHAlign := .center }, h, none⟩
  | .BorderTitleAlignRight, c, h =>
    ⟨c.withOpts { c.opts with borderTitleHAlign := .right }, h, none⟩
  | .BorderColor color, c, h =>
    ⟨c.withOpts { c.opts with inherited := { c.opts.inherited with borderColor := color } }, h, none⟩
  | .FocusedColor color, c, h =>
    ⟨c.withOpts { c.opts with inherited := { c.opts.inherited with focusedColor := color } }, h, none⟩
  | .TitleColor color, c, h =>
    ⟨c.withOpts { c.opts with inherited := { c.opts.inherited with titleColor := some color } }, h, none⟩
  | .TitleFocusedColor color, c, h =>
    ⟨c.withOpts { c.opts with inherited := { c.opts.inherited with titleFocusedColor := some color } }, h, none⟩
  | .KeyFocusNext k, c, h =>
    ⟨c, setG h c.opts.globalRef { getG h c.opts.globalRef with keyFocusNext := some k }, none⟩
  | .KeyFocusPrevious k, c, h =>
    ⟨c, setG h c.opts.globalRef { getG h c.opts.globalRef with keyFocusPrevious := some k }, none⟩
  | .KeyFocusSkip, c, h =>
    ⟨c.withOpts { c.opts with keyFocusSkip := true }, h, none⟩
  | .KeyFocusGroups gs, c, h =>
    let base := if gs.isEmpty then [] else c.opts.keyFocusGroups
    let (l', e) := keyFocusGroupsLoop gs base
    ⟨c.withOpts { c.opts with keyFocusGroups := l' }, h, e⟩
  | .KeyFocusGroupsNext k gs, c, h =>
    let (g', e) := keyFocusGroupsNextG k gs (getG h c.opts.globalRef)
    ⟨c, setG h c.opts.globalRef g', e⟩
  | .KeyFocusGroupsPrevious k gs, c, h =>
    let (g', e) := keyFocusGroupsPreviousG k gs (getG h c.opts.globalRef)
    ⟨c, setG h c.opts.globalRef g', e⟩

/-- Source `applyOptions` from the source: applies each option in order, stopping at
the first error; mutations already performed are retained. -/
def applyOptions : ContOptions → Container → Heap → ApplyResult
  | .nil, c, h => ⟨c, h, none⟩
  | .cons o rest, c, h =>
    match setOption o c h with
    | ⟨c', h', some e⟩ => ⟨c', h', some e⟩
    | ⟨c', h', none⟩ => applyOptions rest c' h'

end

deriving instance DecidableEq for Except

/-! ## Helper lemmas -/

theorem sideAmount_perc_zero (cells dim : Int) : sideAmount cells 0 dim = cells := by
  unfold sideAmount
  split
  · rfl
  · simp_all

theorem sideAmount_cells_zero (perc dim : Int) : sideAmount 0 perc dim = dim * perc / 100 := by
  simp [sideAmount]

theorem shrink_zero (ar : Rect) (hdx : 0 ≤ ar.dx) (hdy : 0 ≤ ar.dy) :
    Shrink ar 0 0 0 0 = .ok ar := by
  unfold Shrink
  rw [if_neg]
  · simp
  · simp only [Rect.dx, Rect.dy] at *
    omega

/-! ## C1 -/

/-- C1 counterexample: with a cell value on the top side and a percentage on
the left side in the same margin (or padding) record, `apply` takes the
cell branch and ignores the left percentage entirely, so it differs from the
claimed per-side-independent application (which would shrink the left side
by 50% of the width, i.e. by 5 cells on a width-10 rectangle). -/
theorem margin_apply_mixed_sides_cex :
    Margin.apply { topCells := 1, leftPerc := 50 } ⟨0, 0, 10, 10⟩ = .ok ⟨0, 1, 10, 10⟩ ∧
    marginApplyPerSide { topCells := 1, leftPerc := 50 } ⟨0, 0, 10, 10⟩ = .ok ⟨5, 1, 10, 10⟩ ∧
    Margin.apply { topCells := 1, leftPerc := 50 } ⟨0, 0, 10, 10⟩ ≠
      marginApplyPerSide { topCells := 1, leftPerc := 50 } ⟨0, 0, 10, 10⟩ ∧
    Padding.apply { topCells := 1, leftPerc := 50 } ⟨0, 0, 10, 10⟩ ≠
      paddingApplyPerSide { topCells := 1, leftPerc := 50 } ⟨0, 0, 10, 10⟩ := by
  refine ⟨rfl, rfl, by decide, by decide⟩

/-- C1 amended: margin and padding application honor exactly one
representation for all four sides per application: if any side has a
non-zero cell value, every side is shrunk by its cell value and all
percentages are ignored; otherwise each side is shrunk by its percentage of
the relevant dimension (a side with neither set is unchanged), for
rectangles with non-negative width and height. -/
theorem margin_padding_apply_single_representation (m : Margin) (q : Padding) (ar : Rect)
    (hdx : 0 ≤ ar.dx) (hdy : 0 ≤ ar.dy) :
    ((m.topCells ≠ 0 ∨ m.rightCells ≠ 0 ∨ m.bottomCells ≠ 0 ∨ m.leftCells ≠ 0) →
      Margin.apply m ar = marginApplyPerSide m.zeroPerc ar) ∧
    (¬(m.topCells ≠ 0 ∨ m.rightCells ≠ 0 ∨ m.bottomCells ≠ 0 ∨ m.leftCells ≠ 0) →
      Margin.apply m ar = marginApplyPerSide m ar) ∧
    ((q.topCells ≠ 0 ∨ q.rightCells ≠ 0 ∨ q.bottomCells ≠ 0 ∨ q.leftCells ≠ 0) →
      Padding.apply q ar = paddingApplyPerSide q.zeroPerc ar) ∧
    (¬(q.topCells ≠ 0 ∨ q.rightCells ≠ 0 ∨ q.bottomCells ≠ 0 ∨ q.leftCells ≠ 0) →
      Padding.apply q ar = paddingApplyPerSide q ar) := by
  refine ⟨fun hc => ?_, fun hnc => ?_, fun hc => ?_, fun hnc => ?_⟩
  · unfold Margin.apply marginApplyPerSide
    rw [if_pos hc]
    simp [Margin.zeroPerc, sideAmount_perc_zero]
  · push_neg at hnc
    obtain ⟨h1, h2, h3, h4⟩ := hnc
    unfold Margin.apply marginApplyPerSide
    rw [if_neg (by simp [h1, h2, h3, h4])]
    by_cases hp : m.topPerc ≠ 0 ∨ m.rightPerc ≠ 0 ∨ m.bottomPerc ≠ 0 ∨ m.leftPerc ≠ 0
    · rw [if_pos hp]
      unfold ShrinkPercent
      simp [h1, h2, h3, h4, sideAmount_cells_zero]
    · rw [if_neg hp]
      push_neg at hp
      obtain ⟨p1, p2, p3, p4⟩ := hp
      rw [h1, h2, h3, h4, p1, p2, p3, p4]
      simp only [sideAmount_perc_zero]
      exact (shrink_zero ar hdx hdy).symm
  · unfold Padding.apply paddingApplyPerSide
    rw [if_pos hc]
    simp [Padding.zeroPerc, sideAmount_perc_zero]
  · push_neg at hnc
    obtain ⟨h1, h2, h3, h4⟩ := hnc
    unfold Padding.apply paddingApplyPerSide
    rw [if_neg (by simp [h1, h2, h3, h4])]
    by_cases hp : q.topPerc ≠ 0 ∨ q.rightPerc ≠ 0 ∨ q.bottomPerc ≠ 0 ∨ q.leftPerc ≠ 0
    · rw [if_pos hp]
      unfold ShrinkPercent
      simp [h1, h2, h3, h4, sideAmount_cells_zero]
    · rw [if_neg hp]
      push_neg at hp
      obtain ⟨p1, p2, p3, p4⟩ := hp
      rw [h1, h2, h3, h4, p1, p2, p3, p4]
      simp only [sideAmount_perc_zero]
      exact (shrink_zero ar hdx hdy).symm

/-- Witness for the amended C1 theorem at a concrete mixed margin record. -/
theorem margin_padding_apply_single_representation_witness :
    Margin.apply { topCells := 1, leftPerc := 50 } ⟨0, 0, 10, 10⟩ =
      marginApplyPerSide (Margin.zeroPerc { topCells := 1, leftPerc := 50 }) ⟨0, 0, 10, 10⟩ :=
  (margin_padding_apply_single_representation { topCells := 1, leftPerc := 50 } {} ⟨0, 0, 10, 10⟩
    (by decide) (by decide)).1 (by decide)

/-! ## C5 -/

theorem applyOptions_append_eq :
    ∀ (os1 os2 : ContOptions) (c : Container) (h : Heap),
      applyOptions (os1.append os2) c h =
        match applyOptions os1 c h with
        | ⟨c', h', some e⟩ => ⟨c', h', some e⟩
        | ⟨c', h', none⟩ => applyOptions os2 c' h'
  | .nil, os2, c, h => by simp [ContOptions.append, applyOptions]
  | .cons o rest, os2, c, h => by
    simp only [ContOptions.append, applyOptions]
    cases hres : setOption o c h with
    | mk c' h' e =>
      cases e with
      | some err => simp
      | none => simpa using applyOptions_append_eq rest os2 c' h'

/-- C5: `applyOptions` applies the options strictly in list order; when a
prefix succeeds, the remaining options run on the mutated state, and when
the prefix ends in an error, that error is returned as-is, no later option
is applied, and the partially-mutated container and heap are kept. -/
theorem applyOptions_ordered_short_circuit (os1 os2 : ContOptions) (c : Container) (h : Heap) :
    ((applyOptions os1 c h).err = none →
      applyOptions (os1.append os2) c h =
        applyOptions os2 (applyOptions os1 c h).c (applyOptions os1 c h).heap) ∧
    (∀ e, (applyOptions os1 c h).err = some e →
      applyOptions (os1.append os2) c h = applyOptions os1 c h) := by
  have key := applyOptions_append_eq os1 os2 c h
  constructor
  · intro he
    rw [key]
    revert he
    cases hres : applyOptions os1 c h with
    | mk c' h' e =>
      intro he
      simp at he
      subst he
      simp
  · intro e he
    rw [key]
    revert he
    cases hres : applyOptions os1 c h with
    | mk c' h' e' =>
      intro he
      simp at he
      subst he
      simp

/-- Witness for C5 at a concrete failing prefix: a successful margin setter
followed by a failing `ID ""` short-circuits, keeping the margin mutation. -/
theorem applyOptions_ordered_short_circuit_witness :
    applyOptions (ContOptions.append (.cons (.MarginTop 3) (.cons (.ID "") .nil))
        (.cons (.MarginBottom 9) .nil))
      (.mk (newOptions none []).1 none none) (newOptions none []).2 =
      applyOptions (.cons (.MarginTop 3) (.cons (.ID "") .nil))
        (.mk (newOptions none []).1 none none) (newOptions none []).2 :=
  (applyOptions_ordered_short_circuit (.cons (.MarginTop 3) (.cons (.ID "") .nil))
      (.cons (.MarginBottom 9) .nil)
      (.mk (newOptions none []).1 none none) (newOptions none []).2).2 .emptyID (by decide)

/-! ## C8 -/

/-- C8: applying `Clear()` then `PlaceWidget(w)` to any container in any
prior state yields a leaf holding exactly widget `w` with no first and no
second child, with no error and no change to the shared global records. -/
theorem clear_then_placeWidget_leaf (c : Container) (h : Heap) (w : Widget) :
    (applyOptions (.cons .Clear (.cons (.PlaceWidget w) .nil)) c h).c.opts.widget = some w ∧
    (applyOptions (.cons .Clear (.cons (.PlaceWidget w) .nil)) c h).c.first = none ∧
    (applyOptions (.cons .Clear (.cons (.PlaceWidget w) .nil)) c h).c.second = none ∧
    (applyOptions (.cons .Clear (.cons (.PlaceWidget w) .nil)) c h).err = none ∧
    (applyOptions (.cons .Clear (.cons (.PlaceWidget w) .nil)) c h).heap = h := by
  cases c with
  | mk o f s =>
    simp [applyOptions, setOption, Container.opts, Container.first, Container.second]

/-! ## C10 -/

/-- C10: `Clear` and `PlaceWidget` touch only the widget reference and the
two child pointers: the resulting options record is the old one with only
the `widget` field replaced (identifier, split settings, margin, padding,
border settings, alignments, focus settings, inherited colors and the
shared global reference all unchanged), and the heap of shared global
records is untouched. -/
theorem clear_placeWidget_frame (c : Container) (h : Heap) (w : Widget) :
    setOption (.PlaceWidget w) c h =
      ⟨.mk { c.opts with widget := some w } none none, h, none⟩ ∧
    setOption .Clear c h = ⟨.mk { c.opts with widget := none } none none, h, none⟩ := by
  cases c with
  | mk o f s =>
    simp [setOption, Container.opts, Container.first, Container.second]

/-! ## C6 -/

theorem firstMatching_find_aux (fg : FocusGroups) :
    ∀ l : List FocusGroup,
      (∀ g : FocusGroup, l.find? (fun x => decide (x ∈ fg)) = some g →
        firstMatching fg l = (true, g)) ∧
      (l.find? (fun x => decide (x ∈ fg)) = none → firstMatching fg l = (false, 0))
  | [] => by simp [firstMatching]
  | x :: rest => by
    by_cases hx : x ∈ fg
    · simp [List.find?, hx, firstMatching]
    · simpa [List.find?, hx, firstMatching] using firstMatching_find_aux fg rest

/-- C6: resolving a key's focus-group set against the focused container's
declared group list picks the first declared group that is in the set, and
reports no match when no declared group is in the set; in particular groups
`[2, 1]` against the set `{1, 2}` resolve to group 2. -/
theorem firstMatching_first_declared :
    (∀ (fg : FocusGroups) (l : List FocusGroup) (g : FocusGroup),
        l.find? (fun x => decide (x ∈ fg)) = some g → firstMatching fg l = (true, g)) ∧
    (∀ (fg : FocusGroups) (l : List FocusGroup),
        l.find? (fun x => decide (x ∈ fg)) = none → firstMatching fg l = (false, 0)) ∧
    firstMatching [1, 2] [2, 1] = (true, 2) :=
  ⟨fun fg l => (firstMatching_find_aux fg l).1,
   fun fg l => (firstMatching_find_aux fg l).2,
   by decide⟩

/-- Witness for C6 at the concrete tie-break instance from the spec. -/
theorem firstMatching_first_declared_witness :
    firstMatching [1, 2] [2, 1] = (true, 2) :=
  firstMatching_first_declared.1 [1, 2] [2, 1] 2 (by decide)

/-! ## Validation walk characterization (shared by C2 and C4) -/

@[simp] theorem validateWalkO_none (seen : List String) :
    validateWalkO none seen = (seen, none) := by
  simp [validateWalkO]

@[simp] theorem validateWalkO_some (c : Container) (seen : List String) :
    validateWalkO (some c) seen = validateWalk c seen := by
  simp [validateWalkO]

@[simp] theorem nonEmptyIdsO_none : nonEmptyIdsO none = [] := by
  simp [nonEmptyIdsO]

@[simp] theorem nonEmptyIdsO_some (c : Container) : nonEmptyIdsO (some c) = nonEmptyIds c := by
  simp [nonEmptyIdsO]

@[simp] theorem allSplitsOKO_none : allSplitsOKO none = true := by
  simp [allSplitsOKO]

@[simp] theorem allSplitsOKO_some (c : Container) : allSplitsOKO (some c) = allSplitsOK c := by
  simp [allSplitsOKO]


/-- The tail of the validation visit at one node: the split check followed by
the walks of the two children. -/
def walkTail (c : Container) (seen1 : List String) : List String × Option Err :=
  match validateSplits c with
  | some e => (seen1, some e)
  | none =>
    match validateWalkO c.first seen1 with
    | (seen2, some e) => (seen2, some e)
    | (seen2, none) => validateWalkO c.second seen2

theorem allSplitsOK_eq (c : Container) :
    allSplitsOK c =
      ((validateSplits c).isNone && allSplitsOKO c.first && allSplitsOKO c.second) := by
  cases c with
  | mk o f s => simp [allSplitsOK, Container.first, Container.second]

theorem nonEmptyIds_eq (c : Container) :
    nonEmptyIds c = (if c.opts.id = "" then [] else [c.opts.id]) ++
      (nonEmptyIdsO c.first ++ nonEmptyIdsO c.second) := by
  cases c with
  | mk o f s => simp [nonEmptyIds, Container.opts, Container.first, Container.second]

theorem validateWalk_eq (o : Opts) (f s : Option Container) (seen : List String) :
    validateWalk (.mk o f s) seen =
      if o.id = "" then walkTail (.mk o f s) seen
      else if o.id ∈ seen then (seen, some (.duplicateID o.id))
      else walkTail (.mk o f s) (seen ++ [o.id]) := by
  simp only [validateWalk, validateIds, Container.opts, walkTail, Container.first,
    Container.second]
  split_ifs with h1 h2 <;> rfl

theorem walkTail_char (c : Container)
    (ihf : ∀ sn : List String,
      ((validateWalkO c.first sn).2 = none ↔
        (allSplitsOKO c.first = true ∧ (nonEmptyIdsO c.first).Nodup ∧
          ∀ i ∈ nonEmptyIdsO c.first, i ∉ sn)) ∧
      ((validateWalkO c.first sn).2 = none →
        (validateWalkO c.first sn).1 = sn ++ nonEmptyIdsO c.first))
    (ihs : ∀ sn : List String,
      ((validateWalkO c.second sn).2 = none ↔
        (allSplitsOKO c.second = true ∧ (nonEmptyIdsO c.second).Nodup ∧
          ∀ i ∈ nonEmptyIdsO c.second, i ∉ sn)) ∧
      ((validateWalkO c.second sn).2 = none →
        (validateWalkO c.second sn).1 = sn ++ nonEmptyIdsO c.second))
    (seen1 : List String) :
    ((walkTail c seen1).2 = none ↔
      (allSplitsOK c = true ∧ (nonEmptyIdsO c.first ++ nonEmptyIdsO c.second).Nodup ∧
        ∀ i ∈ nonEmptyIdsO c.first ++ nonEmptyIdsO c.second, i ∉ seen1)) ∧
    ((walkTail c seen1).2 = none →
      (walkTail c seen1).1 = seen1 ++ (nonEmptyIdsO c.first ++ nonEmptyIdsO c.second)) := by
  unfold walkTail
  cases hsp : validateSplits c with
  | some e =>
    rw [allSplitsOK_eq, hsp]
    simp
  | none =>
    rw [allSplitsOK_eq, hsp]
    cases hwf : validateWalkO c.first seen1 with
    | mk seen2 e2 =>
      cases e2 with
      | some e =>
        have hf := (ihf seen1).1
        rw [hwf] at hf
        simp only [Option.isNone_none, Bool.true_and]
        constructor
        · constructor
          · intro hcon
            exact absurd hcon (by simp)
          · rintro ⟨hall, hnd, hdisj⟩
            rcases Bool.and_eq_true_iff.mp hall with ⟨hfOK, _⟩
            rw [List.nodup_append] at hnd
            have : (some e : Option Err) = none := hf.mpr
              ⟨hfOK, hnd.1, fun i hi => hdisj i (List.mem_append_left _ hi)⟩
            simp at this
        · intro hcon
          exact absurd hcon (by simp)
      | none =>
        have hf1 := ((ihf seen1).1).mp (by rw [hwf])
        have hf2 := (ihf seen1).2 (by rw [hwf])
        rw [hwf] at hf2
        simp only at hf2
        subst hf2
        obtain ⟨hfOK, hndF, hdisjF⟩ := hf1
        have hsiff := (ihs (seen1 ++ nonEmptyIdsO c.first)).1
        have hsseen := (ihs (seen1 ++ nonEmptyIdsO c.first)).2
        simp only [Option.isNone_none, Bool.true_and]
        constructor
        · rw [hsiff]
          constructor
          · rintro ⟨hsOK, hndS, hdisjS⟩
            refine ⟨Bool.and_eq_true_iff.mpr ⟨hfOK, hsOK⟩, ?_, ?_⟩
            · rw [List.nodup_append]
              refine ⟨hndF, hndS, fun a ha hb => ?_⟩
              exact (hdisjS a hb) (List.mem_append_right _ ha)
            · intro i hi
              rcases List.mem_append.mp hi with hif | his
              · exact hdisjF i hif
              · intro hsn
                exact (hdisjS i his) (List.mem_append_left _ hsn)
          · rintro ⟨hall, hnd, hdisj⟩
            rcases Bool.and_eq_true_iff.mp hall with ⟨_, hsOK⟩
            rw [List.nodup_append] at hnd
            refine ⟨hsOK, hnd.2.1, fun i hi hmem => ?_⟩
            rcases List.mem_append.mp hmem with hin | hinf
            · exact (hdisj i (List.mem_append_right _ hi)) hin
            · exact hnd.2.2 hinf hi
        · intro hok
          rw [hsseen hok, List.append_assoc]

mutual

theorem validateWalk_char : ∀ c : Container, ∀ seen : List String,
    ((validateWalk c seen).2 = none ↔
      (allSplitsOK c = true ∧ (nonEmptyIds c).Nodup ∧ ∀ i ∈ nonEmptyIds c, i ∉ seen)) ∧
    ((validateWalk c seen).2 = none → (validateWalk c seen).1 = seen ++ nonEmptyIds c)
  | .mk o f s, seen => by
    have ihf := validateWalkO_char f
    have ihs := validateWalkO_char s
    rw [validateWalk_eq, nonEmptyIds_eq]
    simp only [Container.opts, Container.first, Container.second]
    by_cases h1 : o.id = ""
    · rw [if_pos h1, if_pos h1, List.nil_append]
      exact walkTail_char (.mk o f s)
        (by simpa [Container.first] using ihf) (by simpa [Container.second] using ihs) seen
    · rw [if_neg h1, if_neg h1]
      by_cases h2 : o.id ∈ seen
      · rw [if_pos h2]
        constructor
        · constructor
          · intro hcon
            exact absurd hcon (by simp)
          · rintro ⟨_, _, hdisj⟩
            exact absurd h2 (hdisj o.id (by simp))
        · intro hcon
          exact absurd hcon (by simp)
      · rw [if_neg h2]
        have key := walkTail_char (.mk o f s)
          (by simpa [Container.first] using ihf) (by simpa [Container.second] using ihs)
          (seen ++ [o.id])
        simp only [Container.first, Container.second] at key
        rw [List.singleton_append]
        constructor
        · rw [key.1]
          constructor
          · rintro ⟨hall, hnd, hdisj⟩
            have hnotin : o.id ∉ nonEmptyIdsO f ++ nonEmptyIdsO s := fun hin =>
              (hdisj o.id hin) (List.mem_append_right _ (by simp))
            refine ⟨hall, List.nodup_cons.mpr ⟨hnotin, hnd⟩, ?_⟩
            intro i hi
            rcases List.mem_cons.mp hi with rfl | hrest
            · exact h2
            · intro hin
              exact (hdisj i hrest) (List.mem_append_left _ hin)
          · rintro ⟨hall, hnd, hdisj⟩
            rw [List.nodup_cons] at hnd
            refine ⟨hall, hnd.2, fun i hi hin => ?_⟩
            rcases List.mem_append.mp hin with hins | hid1
            · exact (hdisj i (List.mem_cons_of_mem _ hi)) hins
            · rcases List.mem_singleton.mp hid1 with rfl
              exact hnd.1 hi
        · intro hok
          rw [key.2 hok, List.append_assoc, List.singleton_append]

theorem validateWalkO_char : ∀ oc : Option Container, ∀ seen : List String,
    ((validateWalkO oc seen).2 = none ↔
      (allSplitsOKO oc = true ∧ (nonEmptyIdsO oc).Nodup ∧ ∀ i ∈ nonEmptyIdsO oc, i ∉ seen)) ∧
    ((validateWalkO oc seen).2 = none → (validateWalkO oc seen).1 = seen ++ nonEmptyIdsO oc)
  | none, seen => by simp
  | some c, seen => by simpa using validateWalk_char c seen

end

/-- Source `validateOptions` succeeds exactly when every node passes the split check
and the non-empty identifiers of the tree are pairwise distinct. -/
theorem validateOptions_ok_iff (c : Container) :
    validateOptions c = none ↔ (allSplitsOK c = true ∧ (nonEmptyIds c).Nodup) := by
  unfold validateOptions
  rw [(validateWalk_char c []).1]
  simp

/-! ## Concrete inputs used by witnesses and counterexamples -/

/-- The options of a freshly created root container. -/
def rootOpts : Opts := (newOptions none []).1

/-- The heap after creating a root container. -/
def rootHeap : Heap := (newOptions none []).2

/-- A freshly created root container. -/
def rootContainer : Container := .mk rootOpts none none

/-- A tree in which the identifier `"a"` occurs on two containers. -/
def dupIdTree : Container :=
  .mk { rootOpts with id := "a" }
    (some (.mk { rootOpts with id := "a" } none none))
    (some (.mk rootOpts none none))

/-- A container whose top margin percentage has been configured to 1. -/
def percSetContainer : Container := (setOption (.MarginTopPercent 1) rootContainer rootHeap).c

/-- A container configured with both `SplitFixed(0)` and `SplitPercent(40)`. -/
def badSplitContainer : Container :=
  (setOption (.SplitVertical .nil .nil [.SplitFixed 0, .SplitPercent 40])
    rootContainer rootHeap).c

/-! ## C4 -/

/-- C4: whole-tree validation fails whenever some non-empty identifier is
carried by two distinct containers of the tree; containers with empty
identifiers never cause a duplicate failure: with all non-empty identifiers
pairwise distinct (and any number of empty ones) and no conflicting split
sizing, validation succeeds. -/
theorem validateOptions_duplicate_ids (c : Container) :
    ((∃ i : String, 2 ≤ (nonEmptyIds c).count i) → validateOptions c ≠ none) ∧
    ((nonEmptyIds c).Nodup → allSplitsOK c = true → validateOptions c = none) := by
  constructor
  · rintro ⟨i, hi⟩ hnone
    have hnd := (validateOptions_ok_iff c).mp hnone
    have := List.nodup_iff_count_le_one.mp hnd.2 i
    omega
  · intro hnd hsp
    exact (validateOptions_ok_iff c).mpr ⟨hsp, hnd⟩

/-- Witness for C4: a tree with the identifier `"a"` on two containers fails
validation, and a tree of three containers all with empty identifiers
passes. -/
theorem validateOptions_duplicate_ids_witness :
    validateOptions dupIdTree ≠ none ∧
    validateOptions (.mk rootOpts (some (.mk rootOpts none none))
      (some (.mk rootOpts none none))) = none :=
  ⟨(validateOptions_duplicate_ids dupIdTree).1 ⟨"a", by decide⟩,
   (validateOptions_duplicate_ids (.mk rootOpts (some (.mk rootOpts none none))
      (some (.mk rootOpts none none)))).2 (by decide) (by decide)⟩

/-! ## C2 -/

/-- C2 counterexample: the complementary-representation rejections do not
fire for all individually-accepted values. `MarginTopPercent(0)` is accepted
and configures the percentage for the top side, yet a following
`MarginTop(5)` succeeds; `SplitFixed(0)` and `SplitPercent(50)` are each
accepted individually and configure both sizing values on the same
container, yet whole-tree validation passes. -/
theorem margin_split_zero_values_cex :
    (applyOptions (.cons (.MarginTopPercent 0) (.cons (.MarginTop 5) .nil))
      rootContainer rootHeap).err = none ∧
    (setOption (.SplitVertical .nil .nil [.SplitFixed 0, .SplitPercent 50])
      rootContainer rootHeap).err = none ∧
    validateOptions (setOption (.SplitVertical .nil .nil [.SplitFixed 0, .SplitPercent 50])
      rootContainer rootHeap).c = none := by
  refine ⟨by decide, by decide, by decide⟩

/-- C2 amended: a margin/padding setter fails exactly when the complementary
representation for that side was previously configured to a strictly
positive value (a configured zero does not conflict), and whole-tree
validation fails for a container carrying a non-default fixed split value
(`>= 0`) together with a split percentage different from the default 50
(`SplitPercent(50)` together with a fixed value passes). -/
theorem margin_padding_split_conflicts (c : Container) (h : Heap) (cells perc : Int) :
    (allSplitsOK c = false → validateOptions c ≠ none) ∧
    ((0 ≤ cells → 0 < c.opts.margin.topPerc →
        (setOption (.MarginTop cells) c h).err ≠ none) ∧
      (0 ≤ cells → 0 < c.opts.margin.rightPerc →
        (setOption (.MarginRight cells) c h).err ≠ none) ∧
      (0 ≤ cells → 0 < c.opts.margin.bottomPerc →
        (setOption (.MarginBottom cells) c h).err ≠ none) ∧
      (0 ≤ cells → 0 < c.opts.margin.leftPerc →
        (setOption (.MarginLeft cells) c h).err ≠ none)) ∧
    ((0 ≤ perc → perc ≤ 100 → 0 < c.opts.margin.topCells →
        (setOption (.MarginTopPercent perc) c h).err ≠ none) ∧
      (0 ≤ perc → perc ≤ 100 → 0 < c.opts.margin.rightCells →
        (setOption (.MarginRightPercent perc) c h).err ≠ none) ∧
      (0 ≤ perc → perc ≤ 100 → 0 < c.opts.margin.bottomCells →
        (setOption (.MarginBottomPercent perc) c h).err ≠ none) ∧
      (0 ≤ perc → perc ≤ 100 → 0 < c.opts.margin.leftCells →
        (setOption (.MarginLeftPercent perc) c h).err ≠ none)) ∧
    ((0 ≤ cells → 0 < c.opts.padding.topPerc →
        (setOption (.PaddingTop cells) c h).err ≠ none) ∧
      (0 ≤ cells → 0 < c.opts.padding.rightPerc →
        (setOption (.PaddingRight cells) c h).err ≠ none) ∧
      (0 ≤ cells → 0 < c.opts.padding.bottomPerc →
        (setOption (.PaddingBottom cells) c h).err ≠ none) ∧
      (0 ≤ cells → 0 < c.opts.padding.leftPerc →
        (setOption (.PaddingLeft cells) c h).err ≠ none)) ∧
    ((0 ≤ perc → perc ≤ 100 → 0 < c.opts.padding.topCells →
        (setOption (.PaddingTopPercent perc) c h).err ≠ none) ∧
      (0 ≤ perc → perc ≤ 100 → 0 < c.opts.padding.rightCells →
        (setOption (.PaddingRightPercent perc) c h).err ≠ none) ∧
      (0 ≤ perc → perc ≤ 100 → 0 < c.opts.padding.bottomCells →
        (setOption (.PaddingBottomPercent perc) c h).err ≠ none) ∧
      (0 ≤ perc → perc ≤ 100 → 0 < c.opts.padding.leftCells →
        (setOption (.PaddingLeftPercent perc) c h).err ≠ none)) := by
  refine ⟨?_, ⟨?_, ?_, ?_, ?_⟩, ⟨?_, ?_, ?_, ?_⟩, ⟨?_, ?_, ?_, ?_⟩, ⟨?_, ?_, ?_, ?_⟩⟩
  · intro hbad hnone
    have hok := (validateOptions_ok_iff c).mp hnone
    exact absurd hok.1 (by simp [hbad])
  all_goals first
    | (intro h1 h2
       simp only [setOption]
       rw [if_neg (by omega), if_pos h2]
       simp)
    | (intro h1 h2 h3
       simp only [setOption]
       rw [if_neg (by omega), if_pos h3]
       simp)

/-- Witness for the amended C2 theorem: a top-margin percentage of 1 makes a
following `MarginTop(5)` fail, and a container with `SplitFixed(0)` plus
`SplitPercent(40)` fails whole-tree validation. -/
theorem margin_padding_split_conflicts_witness :
    (setOption (.MarginTop 5) percSetContainer rootHeap).err ≠ none ∧
    validateOptions badSplitContainer ≠ none :=
  ⟨(margin_padding_split_conflicts percSetContainer rootHeap 5 0).2.1.1 (by decide) (by decide),
   (margin_padding_split_conflicts badSplitContainer rootHeap 0 0).1 (by decide)⟩

/-! ## C3 -/

@[simp] theorem treeOKO_none : treeOKO none = true := by
  simp [treeOKO]

@[simp] theorem treeOKO_some (c : Container) : treeOKO (some c) = treeOK c := by
  simp [treeOKO]

theorem nodeOK_mk (o : Opts) (f s : Option Container) :
    nodeOK (.mk o f s) = ((f.isSome == s.isSome) && !(f.isSome && o.widget.isSome)) := by
  simp [nodeOK, Container.first, Container.second, Container.opts]

theorem treeOK_mk (o : Opts) (f s : Option Container) :
    treeOK (.mk o f s) = (nodeOK (.mk o f s) && (treeOKO f && treeOKO s)) := by
  rw [treeOK]
  simp [Bool.and_assoc]

theorem leaf_treeOK (o : Opts) : treeOK (.mk o none none) = true := by
  rw [treeOK_mk, nodeOK_mk]
  simp

theorem treeOK_withOpts_same {c : Container} {o' : Opts}
    (hw : o'.widget = c.opts.widget) (hc : treeOK c = true) :
    treeOK (c.withOpts o') = true := by
  cases c with
  | mk o f s =>
    simp only [Container.opts] at hw
    rw [Container.withOpts, treeOK_mk, nodeOK_mk, hw]
    rw [treeOK_mk, nodeOK_mk] at hc
    exact hc

theorem treeOK_withOpts_none {c : Container} {o' : Opts}
    (hw : o'.widget = none) (hc : treeOK c = true) :
    treeOK (c.withOpts o') = true := by
  cases c with
  | mk o f s =>
    rw [Container.withOpts, treeOK_mk, nodeOK_mk, hw]
    rw [treeOK_mk, nodeOK_mk] at hc
    simp only [Bool.and_eq_true, beq_iff_eq] at hc ⊢
    exact ⟨⟨hc.1.1, by simp⟩, hc.2⟩

theorem applySplitOpts_widget :
    ∀ (so : List SplitOpt) (o : Opts), (applySplitOpts so o).1.widget = o.widget
  | [], _ => rfl
  | sp :: rest, o => by
    cases sp <;>
      simp only [applySplitOpts, setSplit] <;>
      split_ifs <;>
      first
        | rfl
        | simpa using applySplitOpts_widget rest _

mutual

theorem treeOK_setOption : ∀ (o : ContOption) (c : Container) (hp : Heap),
    treeOK c = true → treeOK (setOption o c hp).c = true
  | .SplitVertical l r so, c, hp, hc => by
    simp only [setOption]
    rcases hso : applySplitOpts so { c.opts with split := SplitType.vertical, widget := none }
      with ⟨o2, e⟩
    have hw : o2.widget = none := by
      have h1 := applySplitOpts_widget so
        { c.opts with split := SplitType.vertical, widget := none }
      rw [hso] at h1
      simpa using h1
    cases e with
    | some err => exact treeOK_withOpts_none hw hc
    | none =>
      dsimp only
      generalize newOptions (some o2) hp = p1
      obtain ⟨fo, h1⟩ := p1
      dsimp only
      generalize newOptions (some o2) h1 = p2
      obtain ⟨so2, h2⟩ := p2
      dsimp only
      generalize hrf : applyOptions l (.mk fo none none) h2 = rf
      obtain ⟨fc, fh, fe⟩ := rf
      have hfc : treeOK fc = true := by
        have := treeOK_applyOptions l (.mk fo none none) h2 (leaf_treeOK fo)
        rw [hrf] at this
        exact this
      dsimp only
      cases fe with
      | some err =>
        rw [treeOK_mk, nodeOK_mk, hw]
        simp [hfc, leaf_treeOK]
      | none =>
        generalize hrs : applyOptions r (.mk so2 none none) fh = rs
        obtain ⟨sc, sh, se⟩ := rs
        have hsc : treeOK sc = true := by
          have := treeOK_applyOptions r (.mk so2 none none) fh (leaf_treeOK so2)
          rw [hrs] at this
          exact this
        dsimp only
        rw [treeOK_mk, nodeOK_mk, hw]
        simp [hfc, hsc]
  | .SplitHorizontal t b so, c, hp, hc => by
    simp only [setOption]
    rcases hso : applySplitOpts so { c.opts with split := SplitType.horizontal, widget := none }
      with ⟨o2, e⟩
    have hw : o2.widget = none := by
      have h1 := applySplitOpts_widget so
        { c.opts with split := SplitType.horizontal, widget := none }
      rw [hso] at h1
      simpa using h1
    cases e with
    | some err => exact treeOK_withOpts_none hw hc
    | none =>
      dsimp only
      generalize newOptions (some o2) hp = p1
      obtain ⟨fo, h1⟩ := p1
      dsimp only
      generalize newOptions (some o2) h1 = p2
      obtain ⟨so2, h2⟩ := p2
      dsimp only
      generalize hrf : applyOptions t (.mk fo none none) h2 = rf
      obtain ⟨fc, fh, fe⟩ := rf
      have hfc : treeOK fc = true := by
        have := treeOK_applyOptions t (.mk fo none none) h2 (leaf_treeOK fo)
        rw [hrf] at this
        exact this
      dsimp only
      cases fe with
      | some err =>
        rw [treeOK_mk, nodeOK_mk, hw]
        simp [hfc, leaf_treeOK]
      | none =>
        generalize hrs : applyOptions b (.mk so2 none none) fh = rs
        obtain ⟨sc, sh, se⟩ := rs
        have hsc : treeOK sc = true := by
          have := treeOK_applyOptions b (.mk so2 none none) fh (leaf_treeOK so2)
          rw [hrs] at this
          exact this
        dsimp only
        rw [treeOK_mk, nodeOK_mk, hw]
        simp [hfc, hsc]
  | .ID i, c, hp, hc => by
    simp only [setOption]
    split_ifs
    · exact hc
    · exact treeOK_withOpts_same rfl hc
  | .Clear, c, hp, hc => by
    simp only [setOption]
    exact leaf_treeOK _
  | .PlaceWidget w, c, hp, hc => by
    simp only [setOption]
    exact leaf_treeOK _
  | .MarginTop cells, c, hp, hc => by
    simp only [setOption]
    split_ifs <;> first | exact hc | exact treeOK_withOpts_same rfl hc
  | .MarginRight cells, c, hp, hc => by
    simp only [setOption]
    split_ifs <;> first | exact hc | exact treeOK_withOpts_same rfl hc
  | .MarginBottom cells, c, hp, hc => by
    simp only [setOption]
    split_ifs <;> first | exact hc | exact treeOK_withOpts_same rfl hc
  | .MarginLeft cells, c, hp, hc => by
    simp only [setOption]
    split_ifs <;> first | exact hc | exact treeOK_withOpts_same rfl hc
  | .MarginTopPercent perc, c, hp, hc => by
    simp only [setOption]
    split_ifs <;> first | exact hc | exact treeOK_withOpts_same rfl hc
  | .MarginRightPercent perc, c, hp, hc => by
    simp only [setOption]
    split_ifs <;> first | exact hc | exact treeOK_withOpts_same rfl hc
  | .MarginBottomPercent perc, c, hp, hc => by
    simp only [setOption]
    split_ifs <;> first | exact hc | exact treeOK_withOpts_same rfl hc
  | .MarginLeftPercent perc, c, hp, hc => by
    simp only [setOption]
    split_ifs <;> first | exact hc | exact treeOK_withOpts_same rfl hc
  | .PaddingTop cells, c, hp, hc => by
    simp only [setOption]
    split_ifs <;> first | exact hc | exact treeOK_withOpts_same rfl hc
  | .PaddingRight cells, c, hp, hc => by
    simp only [setOption]
    split_ifs <;> first | exact hc | exact treeOK_withOpts_same rfl hc
  | .PaddingBottom cells, c, hp, hc => by
    simp only [setOption]
    split_ifs <;> first | exact hc | exact treeOK_withOpts_same rfl hc
  | .PaddingLeft cells, c, hp, hc => by
    simp only [setOption]
    split_ifs <;> first | exact hc | exact treeOK_withOpts_same rfl hc
  | .PaddingTopPercent perc, c, hp, hc => by
    simp only [setOption]
    split_ifs <;> first | exact hc | exact treeOK_withOpts_same rfl hc
  | .PaddingRightPercent perc, c, hp, hc => by
    simp only [setOption]
    split_ifs <;> first | exact hc | exact treeOK_withOpts_same rfl hc
  | .PaddingBottomPercent perc, c, hp, hc => by
    simp only [setOption]
    split_ifs <;> first | exact hc | exact treeOK_withOpts_same rfl hc
  | .PaddingLeftPercent perc, c, hp, hc => by
    simp only [setOption]
    split_ifs <;> first | exact hc | exact treeOK_withOpts_same rfl hc
  | .AlignHorizontal a, c, hp, hc => treeOK_withOpts_same rfl hc
  | .AlignVertical a, c, hp, hc => treeOK_withOpts_same rfl hc
  | .Border ls, c, hp, hc => treeOK_withOpts_same rfl hc
  | .BorderTitle ti, c, hp, hc => treeOK_withOpts_same rfl hc
  | .BorderTitleAlignLeft, c, hp, hc => treeOK_withOpts_same rfl hc
  | .BorderTitleAlignCenter, c, hp, hc => treeOK_withOpts_same rfl hc
  | .BorderTitleAlignRight, c, hp, hc => treeOK_withOpts_same rfl hc
  | .BorderColor color, c, hp, hc => treeOK_withOpts_same rfl hc
  | .FocusedColor color, c, hp, hc => treeOK_withOpts_same rfl hc
  | .TitleColor color, c, hp, hc => treeOK_withOpts_same rfl hc
  | .TitleFocusedColor color, c, hp, hc => treeOK_withOpts_same rfl hc
  | .KeyFocusNext k, c, hp, hc => hc
  | .KeyFocusPrevious k, c, hp, hc => hc
  | .KeyFocusSkip, c, hp, hc => treeOK_withOpts_same rfl hc
  | .KeyFocusGroups gs, c, hp, hc => by
    simp only [setOption]
    rcases keyFocusGroupsLoop gs (if gs.isEmpty then [] else c.opts.keyFocusGroups)
      with ⟨l', e⟩
    exact treeOK_withOpts_same rfl hc
  | .KeyFocusGroupsNext k gs, c, hp, hc => by
    simp only [setOption]
    rcases keyFocusGroupsNextG k gs (getG hp c.opts.globalRef) with ⟨g', e⟩
    exact hc
  | .KeyFocusGroupsPrevious k gs, c, hp, hc => by
    simp only [setOption]
    rcases keyFocusGroupsPreviousG k gs (getG hp c.opts.globalRef) with ⟨g', e⟩
    exact hc

theorem treeOK_applyOptions : ∀ (os : ContOptions) (c : Container) (hp : Heap),
    treeOK c = true → treeOK (applyOptions os c hp).c = true
  | .nil, c, hp, hc => hc
  | .cons o rest, c, hp, hc => by
    simp only [applyOptions]
    rcases hres : setOption o c hp with ⟨c', h', e⟩
    have hc' : treeOK c' = true := by
      have := treeOK_setOption o c hp hc
      rw [hres] at this
      exact this
    cases e with
    | some err => exact hc'
    | none => exact treeOK_applyOptions rest c' h' hc'

end

/-- C3: the structural trichotomy is an invariant of option application: on
any container satisfying it (in particular a fresh leaf), applying any list
of options — splits, widget placement, clearing, or any other option —
leaves every node with either two children and no widget, or a widget and
no children, or neither; children and a widget never coexist. -/
theorem option_application_preserves_trichotomy (os : ContOptions) (c : Container) (hp : Heap)
    (hc : treeOK c = true) : treeOK (applyOptions os c hp).c = true :=
  treeOK_applyOptions os c hp hc

/-- Witness for C3: a fresh root taken through a split with nested options,
a widget placement on one child, and a clear. -/
theorem option_application_preserves_trichotomy_witness :
    treeOK (applyOptions
      (.cons (.SplitVertical (.cons (.PlaceWidget 3) .nil) (.cons .Clear .nil) [.SplitPercent 30])
        (.cons (.PlaceWidget 9) .nil))
      rootContainer rootHeap).c = true :=
  option_application_preserves_trichotomy
    (.cons (.SplitVertical (.cons (.PlaceWidget 3) .nil) (.cons .Clear .nil) [.SplitPercent 30])
      (.cons (.PlaceWidget 9) .nil))
    rootContainer rootHeap (by decide)

/-! ## C7 -/

theorem getG_setG (h : Heap) (r : Nat) (g : GlobalOptions) (hr : r < h.length) :
    getG (setG h r g) r = g := by
  unfold getG setG
  rw [List.getD_eq_getElem?_getD, List.getElem?_set_eq_of_lt g hr]
  rfl

/-- C7: a child's options are created from the parent's by copying the
inherited options by value and sharing the parent's global record by
reference: `newOptions` with a parent copies `inherited`, reuses the
parent's global reference and allocates nothing; split-created children
carry the parent's inherited options and global reference; overriding an
inherited option on a container rewrites only that container's own record
and leaves the shared heap untouched; and a global option set through any
container is visible through every container holding the same global
reference. -/
theorem child_inherited_copy_global_shared (p : Opts) (d e : Container) (hp : Heap)
    (k : Key) (color : Color) :
    ((newOptions (some p) hp).1.inherited = p.inherited ∧
      (newOptions (some p) hp).1.globalRef = p.globalRef ∧
      (newOptions (some p) hp).2 = hp) ∧
    ((setOption (.SplitVertical .nil .nil []) d hp).c.first.map
        (fun ch => (ch.opts.inherited, ch.opts.globalRef)) =
          some (d.opts.inherited, d.opts.globalRef) ∧
      (setOption (.SplitVertical .nil .nil []) d hp).c.second.map
        (fun ch => (ch.opts.inherited, ch.opts.globalRef)) =
          some (d.opts.inherited, d.opts.globalRef)) ∧
    (setOption (.BorderColor color) d hp =
      ⟨d.withOpts { d.opts with inherited := { d.opts.inherited with borderColor := color } },
        hp, none⟩) ∧
    (d.opts.globalRef = e.opts.globalRef → e.opts.globalRef < hp.length →
      (getG (setOption (.KeyFocusNext k) d hp).heap e.opts.globalRef).keyFocusNext = some k) := by
  refine ⟨⟨rfl, rfl, rfl⟩, ?_, ?_, ?_⟩
  · cases d with
    | mk o f s =>
      simp [setOption, applySplitOpts, applyOptions, newOptions, Container.first,
        Container.second, Container.opts]
  · cases d with
    | mk o f s =>
      simp [setOption, Container.withOpts, Container.opts]
  · intro h1 h2
    simp only [setOption]
    rw [h1, getG_setG hp e.opts.globalRef _ h2]

/-- Witness for C7 at a concrete parent, child mutation and shared heap. -/
theorem child_inherited_copy_global_shared_witness :
    (getG (setOption (.KeyFocusNext 9) rootContainer rootHeap).heap
      rootContainer.opts.globalRef).keyFocusNext = some 9 :=
  (child_inherited_copy_global_shared rootOpts rootContainer rootContainer rootHeap 9 0).2.2.2
    rfl (by decide)

/-! ## C9 -/

theorem keyFocusGroupsNextG_neg (key : Key) :
    ∀ (gs : List FocusGroup) (g0 : GlobalOptions), (∃ g ∈ gs, g < 0) →
      (keyFocusGroupsNextG key gs g0).2 ≠ none
  | [], g0 => by simp
  | g :: rest, g0 => by
    intro hex
    simp only [keyFocusGroupsNextG]
    split_ifs with h1 h2
    · simp
    · simp
    · rcases hex with ⟨x, hx, hneg⟩
      rcases List.mem_cons.mp hx with rfl | hr
      · exact absurd hneg h1
      · exact keyFocusGroupsNextG_neg key rest _ ⟨x, hr, hneg⟩

theorem keyFocusGroupsPreviousG_neg (key : Key) :
    ∀ (gs : List FocusGroup) (g0 : GlobalOptions), (∃ g ∈ gs, g < 0) →
      (keyFocusGroupsPreviousG key gs g0).2 ≠ none
  | [], g0 => by simp
  | g :: rest, g0 => by
    intro hex
    simp only [keyFocusGroupsPreviousG]
    split_ifs with h1 h2
    · simp
    · simp
    · rcases hex with ⟨x, hx, hneg⟩
      rcases List.mem_cons.mp hx with rfl | hr
      · exact absurd hneg h1
      · exact keyFocusGroupsPreviousG_neg key rest _ ⟨x, hr, hneg⟩

/-- C9: for a non-empty list of non-negative groups, `KeyFocusGroupsNext`
fails when the key is already present in the previous-direction mapping,
and `KeyFocusGroupsPrevious` fails when the key is already present in the
next-direction mapping; a negative group number in either option also
fails. -/
theorem keyFocusGroups_conflicting_keys (k : Key) (gs : List FocusGroup) (c : Container)
    (hp : Heap) :
    (gs ≠ [] → (∀ g ∈ gs, 0 ≤ g) →
      (lookupFG (getG hp c.opts.globalRef).keyFocusGroupsPrevious k).isSome = true →
      (setOption (.KeyFocusGroupsNext k gs) c hp).err ≠ none) ∧
    (gs ≠ [] → (∀ g ∈ gs, 0 ≤ g) →
      (lookupFG (getG hp c.opts.globalRef).keyFocusGroupsNext k).isSome = true →
      (setOption (.KeyFocusGroupsPrevious k gs) c hp).err ≠ none) ∧
    ((∃ g ∈ gs, g < 0) → (setOption (.KeyFocusGroupsNext k gs) c hp).err ≠ none) ∧
    ((∃ g ∈ gs, g < 0) → (setOption (.KeyFocusGroupsPrevious k gs) c hp).err ≠ none) := by
  refine ⟨?_, ?_, ?_, ?_⟩
  · intro hne hnn hlook
    simp only [setOption]
    generalize hkg : keyFocusGroupsNextG k gs (getG hp c.opts.globalRef) = pe
    obtain ⟨g', e⟩ := pe
    dsimp only
    cases gs with
    | nil => exact absurd rfl hne
    | cons g rest =>
      have : (keyFocusGroupsNextG k (g :: rest) (getG hp c.opts.globalRef)).2 ≠ none := by
        simp only [keyFocusGroupsNextG]
        rw [if_neg (not_lt.mpr (hnn g (by simp))), if_pos hlook]
        simp
      rw [hkg] at this
      exact this
  · intro hne hnn hlook
    simp only [setOption]
    generalize hkg : keyFocusGroupsPreviousG k gs (getG hp c.opts.globalRef) = pe
    obtain ⟨g', e⟩ := pe
    dsimp only
    cases gs with
    | nil => exact absurd rfl hne
    | cons g rest =>
      have : (keyFocusGroupsPreviousG k (g :: rest) (getG hp c.opts.globalRef)).2 ≠ none := by
        simp only [keyFocusGroupsPreviousG]
        rw [if_neg (not_lt.mpr (hnn g (by simp))), if_pos hlook]
        simp
      rw [hkg] at this
      exact this
  · intro hex
    simp only [setOption]
    generalize hkg : keyFocusGroupsNextG k gs (getG hp c.opts.globalRef) = pe
    obtain ⟨g', e⟩ := pe
    dsimp only
    have := keyFocusGroupsNextG_neg k gs (getG hp c.opts.globalRef) hex
    rw [hkg] at this
    exact this
  · intro hex
    simp only [setOption]
    generalize hkg : keyFocusGroupsPreviousG k gs (getG hp c.opts.globalRef) = pe
    obtain ⟨g', e⟩ := pe
    dsimp only
    have := keyFocusGroupsPreviousG_neg k gs (getG hp c.opts.globalRef) hex
    rw [hkg] at this
    exact this

/-- A heap whose single global record already maps key 5 in the
previous-direction mapping. -/
def conflictHeap : Heap := [{ keyFocusGroupsPrevious := [(5, [1])] }]

/-- Witness for C9: registering key 5 as a next-direction group key fails
when key 5 is already a previous-direction group key. -/
theorem keyFocusGroups_conflicting_keys_witness :
    (setOption (.KeyFocusGroupsNext 5 [1]) rootContainer conflictHeap).err ≠ none :=
  (keyFocusGroups_conflicting_keys 5 [1] rootContainer conflictHeap).1
    (by decide) (by decide) (by decide)

end Termdash
